import Mathlib

/-!
Shallow embedding of the GBM repository's core algorithms, and proofs of the
frozen claims about them.

Sources embedded (exact arithmetic: Python floats are modelled by `ℚ` where the
computation is rational, by `ℝ` where it uses `exp`/`log`; `NaN`/`None` inputs
are modelled by `Option`):
  * `src/settle_bets.py`   — `resolve_ah_bet_profit`, `settle_open_bets`'s pure
    core (row selection, match lookup, update application).
  * `src/test_parlay_wins.py` — its own `resolve_ah_bet_profit` and
    `test_parlay_construction`'s three-tier parlay search.
  * `src/test_gbm_core.py` — `biv_poisson_pmf`, `calculate_ev_for_ah_bet`,
    `get_closest_ah_line`.
-/

namespace GBM

/-- Python `round` (banker's rounding, half to even) on an exact rational. -/
def pyRound (q : ℚ) : ℤ :=
  let f : ℤ := ⌊q⌋
  let r : ℚ := q - f
  if r < 1/2 then f
  else if r > 1/2 then f + 1
  else if f % 2 = 0 then f else f + 1

/-- Python `round(q, n)`. -/
def roundTo (q : ℚ) (n : ℕ) : ℚ := (pyRound (q * 10 ^ n) : ℚ) / 10 ^ n

/-- ASCII lower-casing of one character (the sources only lower-case ASCII
team/side names, so Python `str.lower` is modelled on ASCII). -/
def asciiLowerChar (c : Char) : Char :=
  if 'A' ≤ c ∧ c ≤ 'Z' then Char.ofNat (c.toNat + 32) else c

/-- Python `str.lower` on ASCII text. -/
def strLower (s : String) : String := String.mk (s.data.map asciiLowerChar)

namespace SettleBets

/-- `settle_bets.resolve_ah_bet_profit`.  `none` models a `NaN`/missing float;
the Python `pd.isna` guard is the outer `match`.  The side is the raw string the
caller passes (the source compares it to the literals `'home'` and `'away'`,
anything else falls to the final `return 0.0`). -/
def resolve_ah_bet_profit (home_goals away_goals line_betted_on_team : Option ℚ)
    (side_betted : String) (odds : Option ℚ) (stake : ℚ) : ℚ :=
  match home_goals, away_goals, line_betted_on_team, odds with
  | some hg, some ag, some line, some o =>
    if o ≤ 0 then 0
    else
      let margin := hg - ag
      let eff? : Option ℚ :=
        if side_betted == "home" then some (margin + line)
        else if side_betted == "away" then some (-margin + line)
        else none
      match eff? with
      | none => 0
      | some eff =>
        if eff > 1/4 then o * stake - stake
        else if eff = 1/4 then (o * stake - stake) / 2
        else if eff = 0 then 0
        else if eff = -(1/4) then -stake / 2
        else -stake
  | _, _, _, _ => 0

end SettleBets

namespace ParlayWins

/-- `test_parlay_wins.resolve_ah_bet_profit` (the parlay bridge's own
settlement): binary win/lose, away line subtracted, side lower-cased. -/
def resolve_ah_bet_profit (home_goals away_goals line_betted_on_team : ℚ)
    (side_betted : String) (odds stake : ℚ) : ℚ :=
  if strLower side_betted == "home" then
    let effective_goals := home_goals + line_betted_on_team
    if effective_goals > away_goals then (odds - 1) * stake else -stake
  else
    let effective_goals := away_goals - line_betted_on_team
    if effective_goals > home_goals then (odds - 1) * stake else -stake

end ParlayWins

namespace GbmCore

/-- `test_gbm_core.calculate_ev_for_ah_bet`.  `none` models `NaN` (the
`np.nan` the source returns for a missing or non-positive price). -/
def calculate_ev_for_ah_bet (p_w p_hw p_p p_hl p_l : ℚ) (odds : Option ℚ) :
    Option ℚ :=
  match odds with
  | none => none
  | some o =>
    if o ≤ 0 then none
    else
      let profit_win := o - 1
      let profit_hw := (o - 1) / 2
      let profit_p : ℚ := 0
      let profit_hl : ℚ := -(1/2)
      let profit_l : ℚ := -1
      some (p_w * profit_win + p_hw * profit_hw + p_p * profit_p
            + p_hl * profit_hl + p_l * profit_l)

/-- `test_gbm_core.get_closest_ah_line`: round to the nearest quarter
(Python `round`, half to even), clamp to `[-3, 3]`; `none` models `NaN` in
and `NaN` out. -/
def get_closest_ah_line (predicted_goal_diff : Option ℚ) : Option ℚ :=
  match predicted_goal_diff with
  | none => none
  | some d =>
    let rounded : ℚ := (pyRound (d * 4) : ℚ) / 4
    some (max (-3) (min 3 rounded))

end GbmCore

/-- The spec's settlement threshold rule (§4.3 step 4 / claim C1), stated on the
handicap-adjusted margin.  This definition transcribes the spec's words, to be
compared with the code's `SettleBets.resolve_ah_bet_profit`. -/
def spec_ah_threshold_profit (margin odds stake : ℚ) : ℚ :=
  if margin > 1/4 then stake * (odds - 1)
  else if margin = 1/4 then stake * (odds - 1) / 2
  else if margin = 0 then 0
  else if margin = -(1/4) then -stake / 2
  else -stake

/-- Does the character list start with the pattern (first argument)? -/
def chStarts : List Char → List Char → Bool
  | [], _ => true
  | _ :: _, [] => false
  | a :: as, b :: bs => a == b && chStarts as bs

/-- Does the character list (second argument) contain the pattern anywhere? -/
def chContains (pat : List Char) : List Char → Bool
  | [] => chStarts pat []
  | c :: t => chStarts pat (c :: t) || chContains pat t

/-- Python's substring test `pat in s`. -/
def strContains (s pat : String) : Bool := chContains pat.data s.data

/-- `itertools.combinations`: all sorted index-subsequences of the given size,
in the lexicographic-by-position order Python produces. -/
def combinations {α : Type} : ℕ → List α → List (List α)
  | 0, _ => [[]]
  | _ + 1, [] => []
  | n + 1, x :: xs => (combinations n xs).map (fun c => x :: c) ++ combinations (n + 1) xs

def firstKeysAux {α : Type} [BEq α] (seen : List α) : List α → List α
  | [] => []
  | x :: xs =>
    if seen.contains x then firstKeysAux seen xs
    else x :: firstKeysAux (x :: seen) xs

/-- Keys in first-occurrence order (a Python dict built by repeated insertion
iterates its keys in this order). -/
def firstKeys {α : Type} [BEq α] (l : List α) : List α := firstKeysAux [] l

/-- `scored.sort(key=..., reverse=True)` (stable) followed by `scored[:1]`:
the first element among those of maximal score. -/
def pickTop {α : Type} (xs : List (ℚ × α)) : Option (ℚ × α) :=
  xs.foldl (fun best x =>
    match best with
    | none => some x
    | some b => if b.1 < x.1 then some x else some b) none

namespace ParlayWins

/-- One winning leg as `test_parlay_construction` builds it from a settled bet
row (`bets.append({...})` in the source). -/
structure Leg where
  dt : Int
  home : String
  away : String
  odds : ℚ
  recText : String  -- the source's 'rec' key ('rec' is reserved in Lean)
  league : String
  tier : ℕ
deriving DecidableEq

/-- The fields of a settled-bet row that `test_parlay_construction` reads. -/
structure SettledBet where
  dt_gmt8 : Int
  league : String
  home : String
  away : String
  odds_betted_on_refined : ℚ
  expected : String
  pl : ℚ
deriving DecidableEq

/-- The source's `LEAGUE_TIERS` mapping. -/
def LEAGUE_TIERS : List (String × ℕ) :=
  [("England Premier League", 1), ("Spain La Liga", 1), ("Germany Bundesliga", 1),
   ("Italy Serie A", 1), ("France Ligue 1", 1),
   ("England Championship", 2), ("Netherlands Eredivisie", 2), ("Portugal Liga NOS", 2),
   ("Belgium Pro League", 2), ("Scotland Premiership", 2)]

/-- `LEAGUE_TIERS.get(league, 4)`. -/
def leagueTier (league : String) : ℕ :=
  match LEAGUE_TIERS.find? (fun p => p.1 == league) with
  | some p => p.2
  | none => 4

def pad2 (n : ℤ) : String := if n < 10 then "0" ++ toString n else toString n

/-- Python `f"{q:.2f}"` on an exact rational (round half to even, print two
decimals). -/
def fmt2 (q : ℚ) : String :=
  let n := pyRound (q * 100)
  if n < 0 then "-" ++ toString (-n / 100) ++ "." ++ pad2 (-n % 100)
  else toString (n / 100) ++ "." ++ pad2 (n % 100)

/-- The filter/append loop over `settled_bets_df` rows: keep winning bets and
build legs, including the display string `rec`. -/
def buildLegs (rows : List SettledBet) : List Leg :=
  (rows.filter (fun r => decide (0 < r.pl))).map (fun r =>
    { dt := r.dt_gmt8, home := r.home, away := r.away,
      odds := r.odds_betted_on_refined,
      recText := r.home ++ " vs " ++ r.away ++ " | " ++ r.expected ++ "@"
        ++ fmt2 r.odds_betted_on_refined,
      league := r.league, tier := leagueTier r.league })

def insertByDt (l : Leg) : List Leg → List Leg
  | [] => [l]
  | x :: xs => if l.dt ≤ x.dt then l :: x :: xs else x :: insertByDt l xs

/-- Python `sorted(legs, key=lambda x: x['dt'])` (stable). -/
def sortByDt : List Leg → List Leg
  | [] => []
  | x :: xs => insertByDt x (sortByDt xs)

/-- `prod *= float(lg['odds'] or 1.0)`: a falsy (zero) odds contributes 1. -/
def prodOdds (c : List Leg) : ℚ :=
  c.foldl (fun p l => p * (if l.odds == 0 then 1 else l.odds)) 1

/-- One output row of the parlay search.  The source stores the two window
endpoints as `strftime` strings; they are kept as raw timestamps here. -/
structure PResult where
  startDt : Int
  endDt : Int
  nLegs : ℕ
  oddsProd : ℚ
  stake : ℚ
  payout : ℚ
  profit : ℚ
  desc : String
deriving DecidableEq

def minDt : List Leg → Int
  | [] => 0
  | l :: ls => ls.foldl (fun a x => min a x.dt) l.dt

def maxDt : List Leg → Int
  | [] => 0
  | l :: ls => ls.foldl (fun a x => max a x.dt) l.dt

/-- `" || ".join(...)`. -/
def joinRecs : List String → String
  | [] => ""
  | [r] => r
  | r :: rs => r ++ " || " ++ joinRecs rs

/-- The `results.append([...])` row for one kept combination. -/
def mkPResult (pre : String) (p : ℚ) (c : List Leg) : PResult :=
  let stake : ℚ := 100
  let payout := stake * p
  let profit := payout - stake
  { startDt := minDt c, endDt := maxDt c, nLegs := c.length,
    oddsProd := roundTo p 4, stake := stake, payout := roundTo payout 2,
    profit := roundTo profit 2,
    desc := pre ++ joinRecs (c.map (fun l => l.recText)) }

/-- Tier-1 sizes: `range(3, min(6, len + 1))`. -/
def sizesT1 (n : ℕ) : List ℕ := (List.range (min 6 (n + 1))).drop 3

/-- Tier-2 sizes: `range(3, min(5, len + 1))`. -/
def sizesT2 (n : ℕ) : List ℕ := (List.range (min 5 (n + 1))).drop 3

/-- Tier 1, one league: the top combination per size (with the ≥4-leg
same-league bonus factor 1.05 applied to the score). -/
def sameLeagueKept (legs : List Leg) (league : String) : List (ℚ × List Leg) :=
  let league_legs := legs.filter (fun l => l.league == league)
  if 3 ≤ league_legs.length then
    (sizesT1 league_legs.length).filterMap (fun size =>
      pickTop ((combinations size league_legs).map (fun c =>
        (prodOdds c * (if 4 ≤ size then (21:ℚ)/20 else 1), c))))
  else []

/-- All tier-1 kept combinations, league keys in dict insertion order. -/
def parlayTier1Combos (legs : List Leg) : List (String × ℚ × List Leg) :=
  (firstKeys (legs.map (fun l => l.league))).flatMap (fun lg =>
    (sameLeagueKept legs lg).map (fun pc => (lg, pc.1, pc.2)))

/-- The tier-1 result rows. -/
def parlayTier1 (legs : List Leg) : List PResult :=
  (parlayTier1Combos legs).map (fun t =>
    mkPResult ("[SAME LEAGUE - " ++ t.1 ++ "] ") t.2.1 t.2.2)

/-- The source's availability test:
`len([r for r in results if leg['home'] in r[-1] and leg['away'] in r[-1]]) == 0`
— a leg is excluded as soon as both its team names occur as substrings of some
kept result's description. -/
def legAvailable (results : List PResult) (leg : Leg) : Bool :=
  results.all (fun r => !(strContains r.desc leg.home && strContains r.desc leg.away))

/-- Tier 2: per tier (dict insertion order), filter available legs against the
accumulated results, keep the top combination per size. -/
def parlayTier2 (legs : List Leg) (res0 : List PResult) : List PResult :=
  (firstKeys (legs.map (fun l => l.tier))).foldl (fun res tier =>
    let tier_legs := legs.filter (fun l => l.tier == tier)
    let available_legs := tier_legs.filter (fun l => legAvailable res l)
    if 3 ≤ available_legs.length then
      res ++ (sizesT2 available_legs.length).filterMap (fun size =>
        (pickTop ((combinations size available_legs).map (fun c =>
          (prodOdds c, c)))).map
            (fun pc => mkPResult ("[TIER " ++ toString tier ++ "] ") pc.1 pc.2))
    else res) res0

/-- Tier 3: the mixed fallback, one top 3-leg combination of the remaining
available legs. -/
def parlayTier3 (legs : List Leg) (res : List PResult) : List PResult :=
  let available_legs := legs.filter (fun l => legAvailable res l)
  if 3 ≤ available_legs.length then
    res ++ ((pickTop ((combinations 3 available_legs).map (fun c =>
      (prodOdds c, c)))).map
        (fun pc => mkPResult "[MIXED] " pc.1 pc.2)).toList
  else res

/-- `test_parlay_construction`: winning legs, one (test) time bucket, sort by
kickoff, cap at 12 legs, then the three tiers in order. -/
def test_parlay_construction (rows : List SettledBet) : List PResult :=
  let bets := buildLegs rows
  if bets.length < 3 then []
  else
    let legs := (sortByDt bets).take 12
    parlayTier3 legs (parlayTier2 legs (parlayTier1 legs))

/-- Counterexample pool for the exclusion claim: three tier-1 legs in one
league, one tier-4 leg `rowD` whose team names equal `rowA`'s, two further
tier-4 legs. -/
def rowA : SettledBet := ⟨1, "England Premier League", "AA", "BB", 2, "e1", 1⟩

def rowB : SettledBet := ⟨2, "England Premier League", "CC", "DD", 2, "e2", 1⟩

def rowC : SettledBet := ⟨3, "England Premier League", "EE", "FF", 2, "e3", 1⟩

def rowD : SettledBet := ⟨4, "X League", "AA", "BB", 3, "e4", 1⟩

def rowE : SettledBet := ⟨5, "Y League", "GG", "HH", 2, "e5", 1⟩

def rowF : SettledBet := ⟨6, "Z League", "II", "JJ", 2, "e6", 1⟩

def rowsC2 : List SettledBet := [rowA, rowB, rowC, rowD, rowE, rowF]

/-- The window legs the tiers run on for `rowsC2`. -/
def legsC2 : List Leg := (sortByDt (buildLegs rowsC2)).take 12

def legA : Leg :=
  { dt := 1, home := "AA", away := "BB", odds := 2, recText := "AA vs BB | e1@2.00",
    league := "England Premier League", tier := 1 }

def legB : Leg :=
  { dt := 2, home := "CC", away := "DD", odds := 2, recText := "CC vs DD | e2@2.00",
    league := "England Premier League", tier := 1 }

def legC : Leg :=
  { dt := 3, home := "EE", away := "FF", odds := 2, recText := "EE vs FF | e3@2.00",
    league := "England Premier League", tier := 1 }

def legD : Leg :=
  { dt := 4, home := "AA", away := "BB", odds := 3, recText := "AA vs BB | e4@3.00",
    league := "X League", tier := 4 }

end ParlayWins

namespace SettleBets

/-- `_normalize_team_name`: `str(name or "").strip().lower()` (ASCII model). -/
def _normalize_team_name (name : String) : String := strLower name.trim

/-- One row of the per-league match cache after `settle_open_bets`'s schema
unification.  The source probes several possible name/goal/timestamp columns
and collapses them; the model keeps the unified record: one name pair, the
unified `dt` (`none` = `NaT`), goal counts (`none` = missing/NaN). -/
structure MatchRec where
  home_name : String
  away_name : String
  dt : Option Int
  homeGoalCount : Option Int
  awayGoalCount : Option Int
deriving DecidableEq

/-- One row of the `bets` table as the settlement SELECT reads it
(`line_val`/`odds_val` may be SQL NULL). -/
structure BetRow where
  bet_id : String
  dt_gmt8 : Int
  league : String
  home : String
  away : String
  line_val : Option ℚ
  odds_val : Option ℚ
  stake_val : ℚ
  side_val : String
  status : Option String
  pl : Option ℚ
  settled_at : Option Int
deriving DecidableEq

/-- `side = 'home' if 'home' in side_raw else ('away' if 'away' in side_raw
else None)` with `side_raw = str(side_val or '').lower()`. -/
def parseSide (side_raw : String) : Option String :=
  if strContains (strLower side_raw) "home" then some "home"
  else if strContains (strLower side_raw) "away" then some "away"
  else none

/-- The candidate mask: normalized match names exactly equal the wager's
normalized names. -/
def candPred (homeN awayN : String) (m : MatchRec) : Bool :=
  _normalize_team_name m.home_name == homeN
    && _normalize_team_name m.away_name == awayN

/-- `abs_dt_diff`; `none` models the `NaT` difference pandas sorts last. -/
def absDiffKey (dtBet : Int) (m : MatchRec) : Option Int :=
  m.dt.map (fun t => |t - dtBet|)

def keyLT : Option Int → Option Int → Bool
  | some a, some b => decide (a < b)
  | some _, none => true
  | none, _ => false

def keyLE : Option Int → Option Int → Bool
  | some a, some b => decide (a ≤ b)
  | _, none => true
  | none, some _ => false

/-- `sub.sort_values('abs_dt_diff')` then `iloc[0]` (stable sort, NaN last):
the first candidate among those with minimal key. -/
def minByKey (dtBet : Int) (c : MatchRec) (cs : List MatchRec) : MatchRec :=
  cs.foldl (fun best x =>
    if keyLT (absDiffKey dtBet x) (absDiffKey dtBet best) then x else best) c

/-- The candidate-selection step of the settlement loop: filter by exact
normalized names, then pick the candidate whose kickoff is closest to the
wager's (`iloc[0]` of the unsorted candidates when the wager has no
timestamp). -/
def findMatch (ms : List MatchRec) (homeN awayN : String)
    (dtBet : Option Int) : Option MatchRec :=
  match ms.filter (candPred homeN awayN), dtBet with
  | [], _ => none
  | c :: cs, some t => some (minByKey t c cs)
  | c :: _, none => some c

/-- The per-bet body of the settlement loop.  `none` means the wager is left
open: unrecognized side, no candidate match, non-finite final scores, or a
failed `float()` conversion of a NULL line/odds (the caught exception). -/
def settleBetProfit (r : BetRow) (ms : List MatchRec) : Option ℚ :=
  match parseSide r.side_val with
  | none => none
  | some side =>
    match findMatch ms (_normalize_team_name r.home)
        (_normalize_team_name r.away) (some r.dt_gmt8) with
    | none => none
    | some m =>
      match m.homeGoalCount, m.awayGoalCount with
      | some hg, some ag =>
        match r.line_val, r.odds_val with
        | some line, some odds =>
          some (resolve_ah_bet_profit (some (hg : ℚ)) (some (ag : ℚ))
            (some line) side (some odds) r.stake_val)
        | _, _ => none
      | _, _ => none

/-- The settlement SELECT: `status IS NULL OR status = 'open'`, kickoff older
than `NOW() - buffer`. -/
def selectOpen (db : List BetRow) (now buffer : Int) : List BetRow :=
  db.filter (fun r => (r.status == none || r.status == some "open")
    && decide (r.dt_gmt8 < now - buffer))

/-- The `(bet_id, profit)` pairs of the UPDATE statements one run issues. -/
def settleUpdates (db : List BetRow) (matchData : String → List MatchRec)
    (now buffer : Int) : List (String × ℚ) :=
  (selectOpen db now buffer).filterMap (fun r =>
    (settleBetProfit r (matchData r.league)).map (fun p => (r.bet_id, p)))

/-- `UPDATE bets SET pl = %s, status = 'settled', settled_at = NOW() WHERE
CAST(bet_id AS TEXT) = %s`, applied to one row. -/
def applyUpdate (now : Int) (row : BetRow) (u : String × ℚ) : BetRow :=
  if row.bet_id == u.1 then
    { row with pl := some u.2, status := some "settled", settled_at := some now }
  else row

/-- The database effect of one `settle_open_bets` run (its pure core: row
selection, per-league match lookup, profit computation, and the batch of
updates committed together at the end). -/
def settle_open_bets (db : List BetRow) (matchData : String → List MatchRec)
    (now buffer : Int) : List BetRow :=
  db.map (fun row =>
    (settleUpdates db matchData now buffer).foldl (applyUpdate now) row)

/-- An unfinished fixture: matching names, kickoff at 0, no goals yet. -/
def mOpen : MatchRec := ⟨"A", "B", some 0, none, none⟩

/-- A finalized fixture with the same names, kickoff further away. -/
def mFinal : MatchRec := ⟨"A", "B", some 10, some 2, some 0⟩

/-- An open wager on A vs B with kickoff 0. -/
def wagerAB : BetRow :=
  ⟨"1", 0, "L", "A", "B", some 0, some 2, 1, "home", some "open", none, none⟩

def rowSettledW : BetRow :=
  ⟨"s1", -100, "L", "A", "B", some 0, some 2, 1, "home", some "settled",
    some 1, some 5⟩

def rowOpenW : BetRow :=
  ⟨"o1", -100, "L", "A", "B", some 0, some 2, 1, "home", some "open", none,
    none⟩

def matchDataW : String → List MatchRec := fun _ => [mFinal]

end SettleBets

namespace GbmCore

noncomputable section

/-- The floor probability `1e-100`. -/
def floorProb : ℝ := 1 / 10 ^ 100

/-- `1e-7`. -/
def eps7 : ℝ := 1 / 10 ^ 7

/-- `1e-9`. -/
def eps9 : ℝ := 1 / 10 ^ 9

/-- `lgamma(n + 1) = log n!` (the source calls `lgamma` only at `n + 1` for a
natural `n`). -/
def logFact (n : ℕ) : ℝ := Real.log (Nat.factorial n)

/-- `current_phi = max(0, min(phi, lambda1 - 1e-7, lambda2 - 1e-7))`. -/
def clampPhi (phi lambda1 lambda2 : ℝ) : ℝ :=
  max 0 (min phi (min (lambda1 - eps7) (lambda2 - eps7)))

/-- One `current_log_sum_term` of the k-loop, in exact real arithmetic.
`none` is `-inf`: the source assigns `-np.inf` to a log-term whose base is
negative or below the `1e-9` threshold, and a sum containing `-inf` is
`-inf`. -/
def bivLogTerm (x y : ℕ) (lambda1 lambda2 current_phi : ℝ) (k : ℕ) :
    Option ℝ :=
  let v1 := lambda1 - current_phi
  let v2 := lambda2 - current_phi
  let lt1 : Option ℝ :=
    if v1 < 0 ∨ v2 < 0 then none
    else if v1 > eps9 then some (((x - k : ℕ) : ℝ) * Real.log v1) else none
  let lt2 : Option ℝ :=
    if v1 < 0 ∨ v2 < 0 then none
    else if v2 > eps9 then some (((y - k : ℕ) : ℝ) * Real.log v2) else none
  let lt3 : Option ℝ :=
    if current_phi > eps9 then some ((k : ℝ) * Real.log current_phi) else none
  match lt1, lt2, lt3 with
  | some a, some b, some c =>
    some (a - logFact (x - k) + b - logFact (y - k) + c - logFact k)
  | _, _, _ => none

/-- `np.nanmax` over the log-terms, with `none` as `-inf`. -/
def optMax (a b : Option ℝ) : Option ℝ :=
  match a, b with
  | none, b => b
  | a, none => a
  | some u, some v => some (max u v)

def listMaxOpt (l : List (Option ℝ)) : Option ℝ := l.foldr optMax none

/-- `np.exp(t - max_log_term)`, with `exp(-inf) = 0`. -/
def expShift (m : ℝ) (t : Option ℝ) : ℝ :=
  match t with
  | none => 0
  | some r => Real.exp (r - m)

/-- `test_gbm_core.biv_poisson_pmf` in exact real arithmetic.  Real inputs
carry no `NaN`, so the `pd.isna` branch of the guard cannot fire; the rest —
the non-positive-rate floor, the φ clamp, the log-space k-sum with `-inf`
thresholds, the empty-terms and all-`-inf` floors, and the log-sum-exp —
follows the source line by line. -/
def biv_poisson_pmf (x y : ℕ) (lambda1 lambda2 phi : ℝ) (max_k_sum : ℕ) : ℝ :=
  if lambda1 ≤ 0 ∨ lambda2 ≤ 0 then floorProb
  else
    let current_phi := clampPhi phi lambda1 lambda2
    if lambda1 + lambda2 - current_phi < 0 then floorProb
    else
      let log_exp_term := -(lambda1 + lambda2 - current_phi)
      let terms := (List.range (min x (min y max_k_sum) + 1)).map
        (bivLogTerm x y lambda1 lambda2 current_phi)
      if terms.isEmpty then floorProb
      else
        match listMaxOpt terms with
        | none => floorProb
        | some m =>
          Real.exp (log_exp_term + (m + Real.log ((terms.map (expShift m)).sum)))

/-- The sum of the pmf over the truncated grid `0..15 × 0..15` (the spec's
normalization property). -/
def gridSum (lambda1 lambda2 phi : ℝ) : ℝ :=
  ∑ x ∈ Finset.range 16, ∑ y ∈ Finset.range 16,
    biv_poisson_pmf x y lambda1 lambda2 phi 20

end

end GbmCore

end GBM

namespace GBM

/-- C1: for finite goals, line, positive odds and a side in `{home, away}`,
`resolve_ah_bet_profit` in `settle_bets.py` applies the spec's threshold rule to
the margin `(home−away)+line` (home side) resp. `(away−home)+line` (away side);
in particular `1-2`, line `0.25`, away at odds `1.925` yields `0.925`, and
`1-1`, line `−1.0`, home at `1.925` yields `−1.0`. -/
theorem settle_resolve_matches_spec_rule (hg ag line odds stake : ℚ)
    (hodds : 0 < odds) :
    SettleBets.resolve_ah_bet_profit (some hg) (some ag) (some line) "home"
        (some odds) stake = spec_ah_threshold_profit ((hg - ag) + line) odds stake
    ∧ SettleBets.resolve_ah_bet_profit (some hg) (some ag) (some line) "away"
        (some odds) stake = spec_ah_threshold_profit ((ag - hg) + line) odds stake
    ∧ SettleBets.resolve_ah_bet_profit (some 1) (some 2) (some (1/4)) "away"
        (some (77/40)) 1 = 37/40
    ∧ SettleBets.resolve_ah_bet_profit (some 1) (some 1) (some (-1)) "home"
        (some (77/40)) 1 = -1 := by
  refine ⟨?_, ?_, ?_, ?_⟩
  · simp only [SettleBets.resolve_ah_bet_profit, spec_ah_threshold_profit,
      if_neg (not_le.mpr hodds)]
    rw [if_pos (by decide : (("home" : String) == "home") = true)]
    dsimp only
    split_ifs <;> ring
  · simp only [SettleBets.resolve_ah_bet_profit, spec_ah_threshold_profit,
      if_neg (not_le.mpr hodds)]
    rw [if_neg (by decide : ¬ ((("away" : String) == "home") = true)),
      if_pos (by decide : (("away" : String) == "away") = true)]
    dsimp only
    rw [show -(hg - ag) + line = (ag - hg) + line from by ring]
    split_ifs <;> ring
  · simp only [SettleBets.resolve_ah_bet_profit]
    rw [if_neg (by norm_num : ¬ ((77:ℚ)/40 ≤ 0)),
      if_neg (by decide : ¬ ((("away" : String) == "home") = true)),
      if_pos (by decide : (("away" : String) == "away") = true)]
    norm_num
  · simp only [SettleBets.resolve_ah_bet_profit]
    rw [if_neg (by norm_num : ¬ ((77:ℚ)/40 ≤ 0)),
      if_pos (by decide : (("home" : String) == "home") = true)]
    norm_num

/-- Witness for C1: the theorem applied at a concrete winning home bet. -/
theorem settle_resolve_matches_spec_rule_witness :
    (0 : ℚ) < 2
    ∧ SettleBets.resolve_ah_bet_profit (some 3) (some 1) (some 0) "home"
        (some 2) 1 = spec_ah_threshold_profit ((3 - 1) + 0) 2 1 :=
  ⟨by norm_num, (settle_resolve_matches_spec_rule 3 1 0 2 1 (by norm_num)).1⟩

/-- C7: `calculate_ev_for_ah_bet` returns the bucket-weighted expected value
`p_w·(odds−1) + p_hw·(odds−1)/2 + p_p·0 + p_hl·(−0.5) + p_l·(−1)` whenever
`odds > 0`, returns the `NaN` sentinel when odds are missing or `≤ 0`, and
returns the sentinel only in those cases. -/
theorem calculate_ev_spec (p_w p_hw p_p p_hl p_l o : ℚ) :
    GbmCore.calculate_ev_for_ah_bet p_w p_hw p_p p_hl p_l (some o)
        = (if o ≤ 0 then none
           else some (p_w * (o - 1) + p_hw * ((o - 1) / 2) + p_p * 0
             + p_hl * (-(1/2)) + p_l * (-1)))
    ∧ GbmCore.calculate_ev_for_ah_bet p_w p_hw p_p p_hl p_l none = none
    ∧ (0 < o →
        GbmCore.calculate_ev_for_ah_bet p_w p_hw p_p p_hl p_l (some o) ≠ none) := by
  refine ⟨rfl, rfl, ?_⟩
  intro h
  simp [GbmCore.calculate_ev_for_ah_bet, not_le.mpr h]

/-- C8: `get_closest_ah_line` rounds the predicted differential to the nearest
quarter (Python `round`, half to even) and clamps to `[−3, 3]`; the result is
always a quarter multiple inside that range; a missing input yields the "no
line" value `none`, not zero; the spec's six sample points evaluate as stated. -/
theorem get_closest_ah_line_spec :
    (∀ d : ℚ, GbmCore.get_closest_ah_line (some d)
        = some (max (-3) (min 3 ((pyRound (d * 4) : ℚ) / 4))))
    ∧ (∀ d : ℚ, ∃ l : ℚ, GbmCore.get_closest_ah_line (some d) = some l
        ∧ -3 ≤ l ∧ l ≤ 3 ∧ ∃ k : ℤ, l = (k : ℚ) / 4)
    ∧ GbmCore.get_closest_ah_line none = none
    ∧ GbmCore.get_closest_ah_line (some (1/10)) = some 0
    ∧ GbmCore.get_closest_ah_line (some (13/100)) = some (1/4)
    ∧ GbmCore.get_closest_ah_line (some (37/100)) = some (1/4)
    ∧ GbmCore.get_closest_ah_line (some (38/100)) = some (1/2)
    ∧ GbmCore.get_closest_ah_line (some (-(3/5))) = some (-(1/2))
    ∧ GbmCore.get_closest_ah_line (some 5) = some 3 := by
  refine ⟨fun d => rfl, fun d => ?_, rfl, ?_, ?_, ?_, ?_, ?_, ?_⟩
  · refine ⟨max (-3) (min 3 ((pyRound (d * 4) : ℚ) / 4)), rfl, le_max_left _ _,
      max_le (by norm_num) (min_le_left _ _), ?_⟩
    rcases le_total ((pyRound (d * 4) : ℚ) / 4) (-3) with h | h
    · refine ⟨-12, ?_⟩
      rw [min_eq_right (by linarith), max_eq_left h]
      norm_num
    · rcases le_total ((pyRound (d * 4) : ℚ) / 4) 3 with h2 | h2
      · exact ⟨pyRound (d * 4), by rw [min_eq_right h2, max_eq_right h]⟩
      · refine ⟨12, ?_⟩
        rw [min_eq_left h2, max_eq_right (by norm_num : (-3:ℚ) ≤ 3)]
        norm_num
  all_goals (simp only [GbmCore.get_closest_ah_line, pyRound]; norm_num)

/-- C9 counterexample: at a quarter-line half-win (`0-0`, home `+0.25`) the
settlement module pays half the win, the parlay bridge's reimplementation pays
the full win, so the two functions are not extensionally equal. -/
theorem settle_vs_parlay_resolve_differ :
    SettleBets.resolve_ah_bet_profit (some 0) (some 0) (some (1/4)) "home"
        (some 2) 1 = 1/2
    ∧ ParlayWins.resolve_ah_bet_profit 0 0 (1/4) "home" 2 1 = 1
    ∧ ((1:ℚ)/2) ≠ 1 := by
  refine ⟨?_, ?_, by norm_num⟩
  · simp only [SettleBets.resolve_ah_bet_profit]
    rw [if_neg (by norm_num : ¬ ((2:ℚ) ≤ 0)),
      if_pos (by decide : (("home" : String) == "home") = true)]
    norm_num
  · simp only [ParlayWins.resolve_ah_bet_profit]
    rw [if_pos (by decide : (strLower "home" == "home") = true)]
    norm_num

/-- C9 amended: the two `resolve_ah_bet_profit` implementations agree (for
positive odds) on home-side wagers whose margin `(home−away)+line` lies strictly
outside `[−0.25, 0.25]`, and on away-side wagers with line `0` whose goal
difference lies strictly outside `[−0.25, 0.25]`; they differ in general — the
parlay version has no half-win/push/half-loss outcomes and subtracts the line
on away bets instead of adding it. -/
theorem settle_vs_parlay_agree_on_full_results (hg ag line odds stake : ℚ)
    (hodds : 0 < odds) :
    ((1/4 < (hg - ag) + line ∨ (hg - ag) + line < -(1/4)) →
      SettleBets.resolve_ah_bet_profit (some hg) (some ag) (some line) "home"
          (some odds) stake
        = ParlayWins.resolve_ah_bet_profit hg ag line "home" odds stake)
    ∧ (line = 0 → (1/4 < ag - hg ∨ ag - hg < -(1/4)) →
      SettleBets.resolve_ah_bet_profit (some hg) (some ag) (some line) "away"
          (some odds) stake
        = ParlayWins.resolve_ah_bet_profit hg ag line "away" odds stake) := by
  constructor
  · intro h
    simp only [SettleBets.resolve_ah_bet_profit, ParlayWins.resolve_ah_bet_profit,
      if_neg (not_le.mpr hodds)]
    rw [if_pos (by decide : (("home" : String) == "home") = true),
      if_pos (by decide : (strLower "home" == "home") = true)]
    dsimp only
    rcases h with h | h
    · rw [if_pos h, if_pos (show ag < hg + line by linarith)]
      ring
    · have h1 : ¬ (1/4 < hg - ag + line) := by linarith
      have h2 : hg - ag + line ≠ 1/4 := by intro he; rw [he] at h; norm_num at h
      have h3 : hg - ag + line ≠ 0 := by intro he; rw [he] at h; norm_num at h
      have h4 : hg - ag + line ≠ -(1/4) := by intro he; rw [he] at h; norm_num at h
      rw [if_neg h1, if_neg h2, if_neg h3, if_neg h4,
        if_neg (show ¬ (ag < hg + line) by linarith)]
  · rintro rfl h
    simp only [SettleBets.resolve_ah_bet_profit, ParlayWins.resolve_ah_bet_profit,
      if_neg (not_le.mpr hodds)]
    rw [if_neg (by decide : ¬ ((("away" : String) == "home") = true)),
      if_pos (by decide : (("away" : String) == "away") = true),
      if_neg (by decide : ¬ ((strLower "away" == "home") = true))]
    dsimp only
    rcases h with h | h
    · rw [if_pos (show -(hg - ag) + 0 > 1/4 by linarith),
        if_pos (show hg < ag - 0 by linarith)]
      ring
    · have h1 : ¬ (1/4 < -(hg - ag) + 0) := by linarith
      have h2 : -(hg - ag) + 0 ≠ 1/4 := by intro he; rw [show -(hg - ag) + 0 = ag - hg from by ring] at he; rw [he] at h; norm_num at h
      have h3 : -(hg - ag) + 0 ≠ 0 := by intro he; rw [show -(hg - ag) + 0 = ag - hg from by ring] at he; rw [he] at h; norm_num at h
      have h4 : -(hg - ag) + 0 ≠ -(1/4) := by intro he; rw [show -(hg - ag) + 0 = ag - hg from by ring] at he; rw [he] at h; norm_num at h
      rw [if_neg h1, if_neg h2, if_neg h3, if_neg h4,
        if_neg (show ¬ (hg < ag - 0) by linarith)]

/-- Witness for the amended C9: both implementations pay `1` on a clear home
win `3-0` at line `0`, odds `2`. -/
theorem settle_vs_parlay_agree_on_full_results_witness :
    SettleBets.resolve_ah_bet_profit (some 3) (some 0) (some 0) "home" (some 2) 1
      = ParlayWins.resolve_ah_bet_profit 3 0 0 "home" 2 1
    ∧ (0:ℚ) < 2 :=
  ⟨(settle_vs_parlay_agree_on_full_results 3 0 0 2 1 (by norm_num)).1
      (Or.inl (by norm_num)), by norm_num⟩

/-- C10: `resolve_ah_bet_profit` in `settle_bets.py` returns `0.0` — the exact
value a push returns — for every error input (missing/NaN goals, line or odds,
non-positive odds, unrecognized side), instead of signalling an error. -/
theorem settle_resolve_error_inputs_return_push_value :
    (∀ (hg ag line : Option ℚ) (side : String) (odds : Option ℚ) (stake : ℚ),
        hg = none ∨ ag = none ∨ line = none ∨ odds = none →
        SettleBets.resolve_ah_bet_profit hg ag line side odds stake = 0)
    ∧ (∀ (hg ag line : ℚ) (side : String) (o stake : ℚ), o ≤ 0 →
        SettleBets.resolve_ah_bet_profit (some hg) (some ag) (some line) side
          (some o) stake = 0)
    ∧ (∀ (hg ag line : ℚ) (side : String) (o stake : ℚ),
        side ≠ "home" → side ≠ "away" →
        SettleBets.resolve_ah_bet_profit (some hg) (some ag) (some line) side
          (some o) stake = 0)
    ∧ SettleBets.resolve_ah_bet_profit (some 1) (some 1) (some 0) "home"
        (some 2) 1 = 0 := by
  refine ⟨?_, ?_, ?_, ?_⟩
  · intro hg ag line side odds stake h
    cases hg <;> cases ag <;> cases line <;> cases odds <;>
      simp_all [SettleBets.resolve_ah_bet_profit]
  · intro hg ag line side o stake h
    simp only [SettleBets.resolve_ah_bet_profit, if_pos h]
  · intro hg ag line side o stake h1 h2
    simp only [SettleBets.resolve_ah_bet_profit, beq_iff_eq, if_neg h1, if_neg h2]
    split_ifs <;> rfl
  · simp only [SettleBets.resolve_ah_bet_profit]
    rw [if_neg (by norm_num : ¬ ((2:ℚ) ≤ 0)),
      if_pos (by decide : (("home" : String) == "home") = true)]
    norm_num

theorem chStarts_iff : ∀ (p s : List Char), chStarts p s = true ↔ ∃ v, s = p ++ v
  | [], s => by simp [chStarts]
  | a :: as, [] => by simp [chStarts]
  | a :: as, b :: bs => by
    simp only [chStarts, Bool.and_eq_true, beq_iff_eq, chStarts_iff as bs,
      List.cons_append, List.cons.injEq]
    constructor
    · rintro ⟨rfl, v, rfl⟩
      exact ⟨v, rfl, rfl⟩
    · rintro ⟨v, rfl, rfl⟩
      exact ⟨rfl, v, rfl⟩

theorem chContains_iff : ∀ (p s : List Char),
    chContains p s = true ↔ ∃ u v, s = u ++ p ++ v
  | p, [] => by
    rw [show chContains p [] = chStarts p [] from rfl, chStarts_iff]
    constructor
    · rintro ⟨v, hv⟩
      exact ⟨[], v, by simpa using hv⟩
    · rintro ⟨u, v, huv⟩
      rcases List.append_eq_nil.mp huv.symm with ⟨h1, rfl⟩
      rcases List.append_eq_nil.mp h1 with ⟨rfl, rfl⟩
      exact ⟨[], rfl⟩
  | p, c :: t => by
    rw [show chContains p (c :: t) = (chStarts p (c :: t) || chContains p t) from rfl,
      Bool.or_eq_true, chStarts_iff, chContains_iff p t]
    constructor
    · rintro (⟨v, hv⟩ | ⟨u, v, huv⟩)
      · exact ⟨[], v, by simpa using hv⟩
      · exact ⟨c :: u, v, by simp [huv]⟩
    · rintro ⟨u, v, huv⟩
      cases u with
      | nil => exact Or.inl ⟨v, by simpa using huv⟩
      | cons c' u' =>
        rw [List.cons_append, List.cons_append, List.cons.injEq] at huv
        exact Or.inr ⟨u', v, huv.2⟩

theorem strContains_iff (s pat : String) :
    strContains s pat = true ↔ ∃ u v : List Char, s.data = u ++ pat.data ++ v :=
  chContains_iff pat.data s.data

theorem strContains_trans (s mid pat : String) (h1 : strContains s mid = true)
    (h2 : strContains mid pat = true) : strContains s pat = true := by
  rcases (strContains_iff s mid).mp h1 with ⟨u, v, huv⟩
  rcases (strContains_iff mid pat).mp h2 with ⟨u2, v2, huv2⟩
  refine (strContains_iff s pat).mpr ⟨u ++ u2, v2 ++ v, ?_⟩
  rw [huv, huv2]
  simp [List.append_assoc]

theorem joinRecs_decomp : ∀ (rs : List String) (r : String), r ∈ rs →
    ∃ u v : List Char, (ParlayWins.joinRecs rs).data = u ++ r.data ++ v
  | [], r, h => absurd h (List.not_mem_nil r)
  | [x], r, h => by
    rcases List.mem_singleton.mp h with rfl
    exact ⟨[], [], by simp [ParlayWins.joinRecs]⟩
  | x :: y :: rest, r, h => by
    rcases List.mem_cons.mp h with rfl | h'
    · refine ⟨[], (" || " ++ ParlayWins.joinRecs (y :: rest)).data, ?_⟩
      rw [show ParlayWins.joinRecs (r :: y :: rest)
          = r ++ " || " ++ ParlayWins.joinRecs (y :: rest) from rfl]
      simp [String.data_append, List.append_assoc]
    · rcases joinRecs_decomp (y :: rest) r h' with ⟨u, v, huv⟩
      refine ⟨(x ++ " || ").data ++ u, v, ?_⟩
      rw [show ParlayWins.joinRecs (x :: y :: rest)
          = x ++ " || " ++ ParlayWins.joinRecs (y :: rest) from rfl]
      simp [String.data_append, huv, List.append_assoc]

theorem legAvailable_false_iff (res : List ParlayWins.PResult) (leg : ParlayWins.Leg) :
    ParlayWins.legAvailable res leg = false ↔
      ∃ r ∈ res, strContains r.desc leg.home = true
        ∧ strContains r.desc leg.away = true := by
  rw [ParlayWins.legAvailable, List.all_eq_false]
  constructor
  · rintro ⟨r, hr, hpr⟩
    have h' : strContains r.desc leg.home = true
        ∧ strContains r.desc leg.away = true := by simpa using hpr
    exact ⟨r, hr, h'.1, h'.2⟩
  · rintro ⟨r, hr, h1, h2⟩
    exact ⟨r, hr, by simp [h1, h2]⟩

/-- C2 counterexample: on the pool `rowsC2` the only kept combination is the
tier-1 triple `[legA, legB, legC]`; `legD` is a distinct leg (different kickoff,
odds, league) that was never consumed, yet because its team names equal
`legA`'s it is marked unavailable for the later tiers, and the whole
construction outputs a single combination — identity-based exclusion would
have let `legD` form a tier-2 combination. -/
theorem parlay_exclusion_value_based_counterexample :
    (ParlayWins.test_parlay_construction ParlayWins.rowsC2).length = 1
    ∧ ParlayWins.parlayTier1Combos ParlayWins.legsC2
        = [("England Premier League", 8, [ParlayWins.legA, ParlayWins.legB, ParlayWins.legC])]
    ∧ ParlayWins.legD ∈ ParlayWins.legsC2
    ∧ ParlayWins.legD ≠ ParlayWins.legA
    ∧ ParlayWins.legD ≠ ParlayWins.legB
    ∧ ParlayWins.legD ≠ ParlayWins.legC
    ∧ ParlayWins.legAvailable (ParlayWins.parlayTier1 ParlayWins.legsC2)
        ParlayWins.legD = false := by
  refine ⟨?_, ?_, ?_, ?_, ?_, ?_, ?_⟩ <;> with_unfolding_all decide

/-- C2 amended: a leg consumed by an earlier-tier combination is excluded from
all later tiers, but the exclusion is value-based, not identity-based: a leg is
available iff no kept result's description contains both its team names as
substrings, availability once lost persists as results accumulate, it depends
only on the leg's `home`/`away` strings (never on its identity), and every leg
of a kept tier-1 combination is subsequently unavailable (legs built by
`buildLegs` always carry their team names inside their display string). -/
theorem parlay_exclusion_is_name_based :
    (∀ (res : List ParlayWins.PResult) (leg : ParlayWins.Leg),
        ParlayWins.legAvailable res leg = false ↔
          ∃ r ∈ res, strContains r.desc leg.home = true
            ∧ strContains r.desc leg.away = true)
    ∧ (∀ (res more : List ParlayWins.PResult) (leg : ParlayWins.Leg),
        ParlayWins.legAvailable res leg = false →
        ParlayWins.legAvailable (res ++ more) leg = false)
    ∧ (∀ (res : List ParlayWins.PResult) (l l' : ParlayWins.Leg),
        l.home = l'.home → l.away = l'.away →
        ParlayWins.legAvailable res l = ParlayWins.legAvailable res l')
    ∧ (∀ (rows : List ParlayWins.SettledBet) (leg : ParlayWins.Leg),
        leg ∈ ParlayWins.buildLegs rows →
        strContains leg.recText leg.home = true
          ∧ strContains leg.recText leg.away = true)
    ∧ (∀ (legs : List ParlayWins.Leg) (lg : String) (p : ℚ)
        (c : List ParlayWins.Leg) (leg : ParlayWins.Leg),
        (lg, p, c) ∈ ParlayWins.parlayTier1Combos legs → leg ∈ c →
        strContains leg.recText leg.home = true →
        strContains leg.recText leg.away = true →
        ParlayWins.legAvailable (ParlayWins.parlayTier1 legs) leg = false) := by
  refine ⟨legAvailable_false_iff, ?_, ?_, ?_, ?_⟩
  · intro res more leg h
    simp only [ParlayWins.legAvailable, List.all_append]
    simp only [ParlayWins.legAvailable] at h
    rw [h, Bool.false_and]
  · intro res l l' hh ha
    simp only [ParlayWins.legAvailable, hh, ha]
  · intro rows leg h
    rcases List.mem_map.mp h with ⟨r, hr, rfl⟩
    constructor
    · refine (strContains_iff _ _).mpr ⟨[], (" vs " ++ r.away ++ " | " ++ r.expected
        ++ "@" ++ ParlayWins.fmt2 r.odds_betted_on_refined).data, ?_⟩
      simp [String.data_append, List.append_assoc]
    · refine (strContains_iff _ _).mpr ⟨(r.home ++ " vs ").data, (" | " ++ r.expected
        ++ "@" ++ ParlayWins.fmt2 r.odds_betted_on_refined).data, ?_⟩
      simp [String.data_append, List.append_assoc]
  · intro legs lg p c leg hmem hleg hh ha
    have hres : ParlayWins.mkPResult ("[SAME LEAGUE - " ++ lg ++ "] ") p c
        ∈ ParlayWins.parlayTier1 legs := by
      unfold ParlayWins.parlayTier1
      exact List.mem_map.mpr ⟨(lg, p, c), hmem, rfl⟩
    have hjoin : strContains
        (ParlayWins.joinRecs (c.map (fun l => l.recText))) leg.recText = true := by
      rcases joinRecs_decomp (c.map (fun l => l.recText)) leg.recText
        (List.mem_map_of_mem _ hleg) with ⟨u, v, huv⟩
      exact (strContains_iff _ _).mpr ⟨u, v, huv⟩
    have hdesc : strContains
        (ParlayWins.mkPResult ("[SAME LEAGUE - " ++ lg ++ "] ") p c).desc
        leg.recText = true := by
      rw [show (ParlayWins.mkPResult ("[SAME LEAGUE - " ++ lg ++ "] ") p c).desc
          = ("[SAME LEAGUE - " ++ lg ++ "] ")
            ++ ParlayWins.joinRecs (c.map (fun l => l.recText)) from rfl]
      rcases (strContains_iff _ _).mp hjoin with ⟨u, v, huv⟩
      exact (strContains_iff _ _).mpr ⟨("[SAME LEAGUE - " ++ lg ++ "] ").data ++ u, v,
        by simp [String.data_append, huv, List.append_assoc]⟩
    exact (legAvailable_false_iff _ _).mpr ⟨_, hres,
      strContains_trans _ _ _ hdesc hh, strContains_trans _ _ _ hdesc ha⟩

theorem keyLE_refl (k : Option Int) : SettleBets.keyLE k k = true := by
  cases k <;> simp [SettleBets.keyLE]

theorem keyLE_trans {a b c : Option Int} (h1 : SettleBets.keyLE a b = true)
    (h2 : SettleBets.keyLE b c = true) : SettleBets.keyLE a c = true := by
  cases a <;> cases b <;> cases c <;> simp_all [SettleBets.keyLE] <;> omega

theorem keyLT_le {a b : Option Int} (h : SettleBets.keyLT a b = true) :
    SettleBets.keyLE a b = true := by
  cases a <;> cases b <;> simp_all [SettleBets.keyLT, SettleBets.keyLE] <;> omega

theorem keyLT_false_le {a b : Option Int} (h : SettleBets.keyLT a b = false) :
    SettleBets.keyLE b a = true := by
  cases a <;> cases b <;> simp_all [SettleBets.keyLT, SettleBets.keyLE] <;> omega

theorem minByKey_spec (t : Int) : ∀ (cs : List SettleBets.MatchRec)
    (c : SettleBets.MatchRec),
    SettleBets.minByKey t c cs ∈ c :: cs
    ∧ ∀ m' ∈ c :: cs,
        SettleBets.keyLE (SettleBets.absDiffKey t (SettleBets.minByKey t c cs))
          (SettleBets.absDiffKey t m') = true
  | [], c => by
    refine ⟨List.mem_cons_self c [], ?_⟩
    intro m' hm'
    rcases List.mem_cons.mp hm' with rfl | h
    · exact keyLE_refl _
    · exact absurd h (List.not_mem_nil m')
  | x :: xs, c => by
    have hstep : SettleBets.minByKey t c (x :: xs)
        = SettleBets.minByKey t
            (if SettleBets.keyLT (SettleBets.absDiffKey t x)
              (SettleBets.absDiffKey t c) then x else c) xs := rfl
    rcases minByKey_spec t xs
        (if SettleBets.keyLT (SettleBets.absDiffKey t x)
          (SettleBets.absDiffKey t c) then x else c) with ⟨hmem, hmin⟩
    constructor
    · rw [hstep]
      rcases List.mem_cons.mp hmem with h | h
      · rw [h]
        split_ifs
        · exact List.mem_cons_of_mem c (List.mem_cons_self x xs)
        · exact List.mem_cons_self c (x :: xs)
      · exact List.mem_cons_of_mem c (List.mem_cons_of_mem x h)
    · intro m' hm'
      rw [hstep]
      have hhead := hmin _ (List.mem_cons_self _ xs)
      rcases List.mem_cons.mp hm' with rfl | hm2
      · -- m' = c
        by_cases hlt : SettleBets.keyLT (SettleBets.absDiffKey t x)
            (SettleBets.absDiffKey t m') = true
        · rw [if_pos hlt] at hhead ⊢
          exact keyLE_trans hhead (keyLT_le hlt)
        · rw [if_neg hlt] at hhead ⊢
          exact hhead
      · rcases List.mem_cons.mp hm2 with rfl | hm3
        · -- m' = x
          by_cases hlt : SettleBets.keyLT (SettleBets.absDiffKey t m')
              (SettleBets.absDiffKey t c) = true
          · rw [if_pos hlt] at hhead ⊢
            exact hhead
          · rw [if_neg hlt] at hhead ⊢
            exact keyLE_trans hhead
              (keyLT_false_le (Bool.not_eq_true _ ▸ hlt))
        · exact hmin m' (List.mem_cons_of_mem _ hm3)

/-- C4 counterexample: the wager's candidate pool holds a not-yet-finalized
fixture whose kickoff matches exactly and a finalized fixture 10 units away;
the code selects the closer unfinished one, finds no goals, and leaves the
wager open — although a finalized match with exactly matching normalized names
exists, contradicting "considers only finalized matches". -/
theorem settle_match_pick_counterexample :
    SettleBets.settleBetProfit SettleBets.wagerAB
        [SettleBets.mOpen, SettleBets.mFinal] = none
    ∧ SettleBets.mFinal ∈ [SettleBets.mOpen, SettleBets.mFinal]
    ∧ SettleBets.candPred
        (SettleBets._normalize_team_name SettleBets.wagerAB.home)
        (SettleBets._normalize_team_name SettleBets.wagerAB.away)
        SettleBets.mFinal = true
    ∧ SettleBets.mFinal.homeGoalCount ≠ none
    ∧ SettleBets.mFinal.awayGoalCount ≠ none := by
  refine ⟨?_, ?_, ?_, ?_, ?_⟩ <;> with_unfolding_all decide

theorem findMatch_filter_cases (ms : List SettleBets.MatchRec)
    (homeN awayN : String) (t : Int) :
    (ms.filter (SettleBets.candPred homeN awayN) = []
      ∧ SettleBets.findMatch ms homeN awayN (some t) = none)
    ∨ ∃ c cs, ms.filter (SettleBets.candPred homeN awayN) = c :: cs
        ∧ SettleBets.findMatch ms homeN awayN (some t)
            = some (SettleBets.minByKey t c cs) := by
  rcases h : ms.filter (SettleBets.candPred homeN awayN) with _ | ⟨c, cs⟩
  · exact Or.inl ⟨rfl, by simp [SettleBets.findMatch, h]⟩
  · exact Or.inr ⟨c, cs, rfl, by simp [SettleBets.findMatch, h]⟩

/-- C4 amended: settlement considers every cached match (finalized or not)
whose normalized names exactly equal the wager's; among those candidates it
selects one minimizing the absolute kickoff difference (unknown kickoffs order
last); the wager is settled only if that selected candidate carries finite
final scores, and is left open when it does not or when no candidate matches. -/
theorem settle_match_selection_spec :
    (∀ (ms : List SettleBets.MatchRec) (homeN awayN : String)
        (dtB : Option Int),
        SettleBets.findMatch ms homeN awayN dtB = none
          ↔ ms.filter (SettleBets.candPred homeN awayN) = [])
    ∧ (∀ (ms : List SettleBets.MatchRec) (homeN awayN : String) (t : Int)
        (m : SettleBets.MatchRec),
        SettleBets.findMatch ms homeN awayN (some t) = some m →
          m ∈ ms.filter (SettleBets.candPred homeN awayN)
          ∧ ∀ m' ∈ ms.filter (SettleBets.candPred homeN awayN),
              SettleBets.keyLE (SettleBets.absDiffKey t m)
                (SettleBets.absDiffKey t m') = true)
    ∧ (∀ (r : SettleBets.BetRow) (ms : List SettleBets.MatchRec)
        (m : SettleBets.MatchRec),
        SettleBets.findMatch ms (SettleBets._normalize_team_name r.home)
            (SettleBets._normalize_team_name r.away) (some r.dt_gmt8) = some m →
        (m.homeGoalCount = none ∨ m.awayGoalCount = none) →
        SettleBets.settleBetProfit r ms = none)
    ∧ (∀ (r : SettleBets.BetRow) (ms : List SettleBets.MatchRec),
        SettleBets.findMatch ms (SettleBets._normalize_team_name r.home)
            (SettleBets._normalize_team_name r.away) (some r.dt_gmt8) = none →
        SettleBets.settleBetProfit r ms = none) := by
  refine ⟨?_, ?_, ?_, ?_⟩
  · intro ms homeN awayN dtB
    rcases h : ms.filter (SettleBets.candPred homeN awayN) with _ | ⟨c, cs⟩ <;>
      cases dtB <;> simp [SettleBets.findMatch, h]
  · intro ms homeN awayN t m hfind
    rcases findMatch_filter_cases ms homeN awayN t with ⟨h, hnone⟩ | ⟨c, cs, h, heq⟩
    · rw [hnone] at hfind
      cases hfind
    · rw [heq] at hfind
      have hm := Option.some_inj.mp hfind
      rcases minByKey_spec t cs c with ⟨hmem, hmin⟩
      rw [← hm, h]
      exact ⟨hmem, hmin⟩
  · intro r ms m hfind hnone
    unfold SettleBets.settleBetProfit
    cases hps : SettleBets.parseSide r.side_val with
    | none => rfl
    | some side =>
      rw [hfind]
      dsimp only
      rcases hnone with h1 | h1
      · rw [h1]
      · rw [h1]
        cases m.homeGoalCount <;> rfl
  · intro r ms hfind
    unfold SettleBets.settleBetProfit
    cases hps : SettleBets.parseSide r.side_val with
    | none => rfl
    | some side => rw [hfind]

theorem foldl_applyUpdate_id (now : Int) : ∀ (us : List (String × ℚ))
    (row : SettleBets.BetRow),
    (∀ u ∈ us, u.1 ≠ row.bet_id) →
    us.foldl (SettleBets.applyUpdate now) row = row
  | [], _, _ => rfl
  | u :: us, row, h => by
    have h1 : SettleBets.applyUpdate now row u = row := by
      unfold SettleBets.applyUpdate
      rw [if_neg]
      simp only [beq_iff_eq]
      exact fun he => (h u (List.mem_cons_self u us)) he.symm
    rw [List.foldl_cons, h1]
    exact foldl_applyUpdate_id now us row
      (fun v hv => h v (List.mem_cons_of_mem u hv))

/-- C3: the settlement run selects only rows with status NULL/'open' and
kickoff older than the buffer, and (given that wager identities are unique,
as the data model's identity field requires) a row already marked 'settled'
is written back unchanged — its profit/loss, status and settlement timestamp
are exactly what they were. -/
theorem settle_skips_settled_rows (db : List SettleBets.BetRow)
    (matchData : String → List SettleBets.MatchRec) (now buffer : Int)
    (hids : (db.map SettleBets.BetRow.bet_id).Nodup) :
    (∀ r ∈ SettleBets.selectOpen db now buffer,
        (r.status = none ∨ r.status = some "open") ∧ r.dt_gmt8 < now - buffer)
    ∧ SettleBets.settle_open_bets db matchData now buffer
        = db.map (fun row => (SettleBets.settleUpdates db matchData now buffer).foldl
            (SettleBets.applyUpdate now) row)
    ∧ ∀ row ∈ db, row.status = some "settled" →
        (SettleBets.settleUpdates db matchData now buffer).foldl
          (SettleBets.applyUpdate now) row = row := by
  refine ⟨?_, rfl, ?_⟩
  · intro r hr
    have := List.mem_filter.mp hr
    constructor
    · rcases Bool.or_eq_true _ _ |>.mp (Bool.and_eq_true _ _ |>.mp this.2).1 with h | h
      · exact Or.inl (by simpa using h)
      · exact Or.inr (by simpa using h)
    · simpa using (Bool.and_eq_true _ _ |>.mp this.2).2
  · intro row hrow hst
    refine foldl_applyUpdate_id now _ row ?_
    intro u hu
    rcases List.mem_filterMap.mp hu with ⟨r', hr', hmap⟩
    rcases Option.map_eq_some'.mp hmap with ⟨p, hp, hup⟩
    have hr'db := (List.mem_filter.mp hr').1
    have hr'status := (Bool.and_eq_true _ _ |>.mp (List.mem_filter.mp hr').2).1
    intro heq
    have hids' : r' = row :=
      List.inj_on_of_nodup_map hids hr'db hrow (by rw [← hup] at heq; exact heq)
    rw [hids', hst] at hr'status
    simp at hr'status

/-- Witness for C3: the theorem applied to a two-row table holding one settled
and one open wager; the settled row survives the run untouched. -/
theorem settle_skips_settled_rows_witness :
    ((([SettleBets.rowSettledW, SettleBets.rowOpenW].map
        SettleBets.BetRow.bet_id).Nodup)
    ∧ (SettleBets.settleUpdates [SettleBets.rowSettledW, SettleBets.rowOpenW]
          SettleBets.matchDataW 0 2).foldl (SettleBets.applyUpdate 0)
        SettleBets.rowSettledW = SettleBets.rowSettledW) :=
  ⟨by with_unfolding_all decide,
    (settle_skips_settled_rows [SettleBets.rowSettledW, SettleBets.rowOpenW]
      SettleBets.matchDataW 0 2 (by with_unfolding_all decide)).2.2
      SettleBets.rowSettledW (List.mem_cons_self _ _) rfl⟩

theorem bivLogTerm_symm (x y : ℕ) (lam phiC : ℝ) (k : ℕ) :
    GbmCore.bivLogTerm x y lam lam phiC k = GbmCore.bivLogTerm y x lam lam phiC k := by
  unfold GbmCore.bivLogTerm
  dsimp only
  split_ifs <;> first
    | rfl
    | (dsimp only; congr 1; ring)

/-- C5: the scoreline probability is symmetric under swapping the two goal
counts whenever the two expected-goal rates are equal: each log-space k-term is
itself symmetric and the k-range `0..min(x, y, max_k_sum)` is symmetric. -/
theorem biv_poisson_pmf_symm (x y : ℕ) (lam phi : ℝ) (max_k_sum : ℕ) :
    GbmCore.biv_poisson_pmf x y lam lam phi max_k_sum
      = GbmCore.biv_poisson_pmf y x lam lam phi max_k_sum := by
  unfold GbmCore.biv_poisson_pmf
  dsimp only
  have hterms : (List.range (min x (min y max_k_sum) + 1)).map
        (GbmCore.bivLogTerm x y lam lam (GbmCore.clampPhi phi lam lam))
      = (List.range (min y (min x max_k_sum) + 1)).map
        (GbmCore.bivLogTerm y x lam lam (GbmCore.clampPhi phi lam lam)) := by
    rw [min_left_comm]
    exact List.map_congr_left (fun k _ => bivLogTerm_symm x y lam _ k)
  rw [hterms]

theorem bivLogTerm_none_of_phi_small (x y : ℕ) (l1 l2 cphi : ℝ) (k : ℕ)
    (h : ¬ cphi > GbmCore.eps9) : GbmCore.bivLogTerm x y l1 l2 cphi k = none := by
  unfold GbmCore.bivLogTerm
  dsimp only
  rw [if_neg h]
  by_cases hc : l1 - cphi < 0 ∨ l2 - cphi < 0
  · rw [if_pos hc, if_pos hc]
  · rw [if_neg hc, if_neg hc]
    by_cases h1 : l1 - cphi > GbmCore.eps9 <;>
      by_cases h2 : l2 - cphi > GbmCore.eps9 <;>
        simp [h1, h2]

theorem listMaxOpt_none : ∀ (l : List (Option ℝ)), (∀ a ∈ l, a = none) →
    GbmCore.listMaxOpt l = none
  | [], _ => rfl
  | x :: xs, h => by
    rw [GbmCore.listMaxOpt, List.foldr_cons, h x (List.mem_cons_self _ _),
      show List.foldr GbmCore.optMax none xs = GbmCore.listMaxOpt xs from rfl,
      listMaxOpt_none xs (fun a ha => h a (List.mem_cons_of_mem _ ha))]
    rfl

theorem biv_pmf_phi_zero (x y : ℕ) :
    GbmCore.biv_poisson_pmf x y 1 1 0 20 = GbmCore.floorProb := by
  have hclamp : GbmCore.clampPhi 0 1 1 = 0 := by
    unfold GbmCore.clampPhi
    rw [min_self, min_eq_left (by norm_num [GbmCore.eps7] : (0:ℝ) ≤ 1 - GbmCore.eps7),
      max_self]
  unfold GbmCore.biv_poisson_pmf
  dsimp only
  rw [if_neg (by norm_num : ¬ ((1:ℝ) ≤ 0 ∨ (1:ℝ) ≤ 0)), hclamp,
    if_neg (by norm_num : ¬ ((1:ℝ) + 1 - 0 < 0))]
  have hall : ∀ a ∈ (List.range (min x (min y 20) + 1)).map
      (GbmCore.bivLogTerm x y 1 1 0), a = none := by
    intro a ha
    rcases List.mem_map.mp ha with ⟨k, _, rfl⟩
    exact bivLogTerm_none_of_phi_small x y 1 1 0 k
      (by norm_num [GbmCore.eps9])
  rw [listMaxOpt_none _ hall]
  have hne : ((List.range (min x (min y 20) + 1)).map
      (GbmCore.bivLogTerm x y 1 1 0)).isEmpty = false := by
    simp
  rw [hne]
  rfl

/-- C6: at the valid parameter point `λ_h = λ_a = 1`, `φ = 0` (inside the
stated region `0 ≤ φ < min(λ_h, λ_a)`) the `current_phi > 1e-9` guard sends
every k-term to `-inf`, so the pmf returns the `1e-100` floor for every
scoreline; the 16×16 grid sums to `256e-100`, nowhere near 1. -/
theorem grid_normalization_fails_at_phi_zero :
    ((0:ℝ) < 1 ∧ (0:ℝ) ≤ 0 ∧ (0:ℝ) < min (1:ℝ) 1)
    ∧ GbmCore.gridSum 1 1 0 = 256 * GbmCore.floorProb
    ∧ ¬ (|GbmCore.gridSum 1 1 0 - 1| ≤ 1 / 100) := by
  have hgrid : GbmCore.gridSum 1 1 0 = 256 * GbmCore.floorProb := by
    unfold GbmCore.gridSum
    rw [Finset.sum_congr rfl (fun x _ => Finset.sum_congr rfl
      (fun y _ => biv_pmf_phi_zero x y))]
    simp [Finset.sum_const, Finset.card_range]
    ring
  refine ⟨⟨by norm_num, le_refl 0, by norm_num⟩, hgrid, ?_⟩
  rw [hgrid]
  have hlt : (256:ℝ) * GbmCore.floorProb < 1/2 := by
    norm_num [GbmCore.floorProb]
  have h0 : (0:ℝ) ≤ 256 * GbmCore.floorProb := by
    norm_num [GbmCore.floorProb]
  rw [abs_of_neg (by linarith : (256:ℝ) * GbmCore.floorProb - 1 < 0)]
  intro hcontra
  have : (99:ℝ)/100 ≤ 256 * GbmCore.floorProb := by linarith
  norm_num [GbmCore.floorProb] at this

end GBM
